import Mathlib

/-!
Verification development for the grocery price-comparison pipeline of the
Apple-Shortcuts-MCP repository (`src/shortcuts_mcp/tools/grocery.py`).

The Python source is shallowly embedded below:
* Python `float` arithmetic on prices/weights is modelled by exact rationals `ℚ`
  (all constants in the source and the specification are short decimals);
* Python dicts with optional keys are modelled by structures with `Option` fields;
* Python exceptions are modelled by `Except String`;
* the three regular expressions in the source are embedded as executable
  matchers on `List Char` implementing the semantics of `re.match` / `re.search`
  for those concrete patterns (leftmost match, lazy/greedy quantifiers,
  backtracking where it can matter); character classes `\s` and `\d` are
  modelled over their ASCII ranges.
-/

namespace Grocery

/-- ASCII whitespace, the characters matched by `\s` and trimmed by `str.strip()`. -/
def pyIsSpace (c : Char) : Bool :=
  c = ' ' || c = '\t' || c = '\n' || c = '\r' || c = '\x0b' || c = '\x0c'

/-- `str.strip()` on a character list: drop whitespace from both ends. -/
def pyStripList (cs : List Char) : List Char :=
  ((cs.dropWhile pyIsSpace).reverse.dropWhile pyIsSpace).reverse

/-- Drop trailing whitespace only (the right half of `str.strip()`). -/
def pyStripEnd (cs : List Char) : List Char :=
  (cs.reverse.dropWhile pyIsSpace).reverse

/-- Numeric value of a digit string, as used by `float()` on an integer literal. -/
def digitsToNat (cs : List Char) : Nat :=
  cs.foldl (fun n c => n * 10 + (c.toNat - 48)) 0

/-- Value of `float()` applied to the numeral strings captured by the source's
regex groups: digits, optionally followed by a dot and further digits. -/
def numValue (cs : List Char) : ℚ :=
  let ds := cs.takeWhile Char.isDigit
  match cs.dropWhile Char.isDigit with
  | [] => (digitsToNat ds : ℚ)
  | _ :: fs => (digitsToNat ds : ℚ) + (digitsToNat fs : ℚ) / (10 : ℚ) ^ fs.length

/-! ### The item parser

`_parse_item_with_weight` matches the stripped input against
`^(.+?)\s+(\d+(?:\.\d+)?)\s*(g|kg)$` with `re.IGNORECASE`.  The matcher below
implements the regex engine's behaviour on this pattern: the lazy group `(.+?)`
grows one (non-newline) character at a time, and at each boundary the rest of
the string must match `\s+(\d+(?:\.\d+)?)\s*(g|kg)$` (whose sub-matches are
forced, because the neighbouring character classes are disjoint; the one
optional group `(?:\.\d+)` is skipped when no digit follows the dot). -/

/-- Match `(g|kg)$` case-insensitively: the remainder must be exactly a case
variant of `g` or of `kg`.  Returns the lower-cased unit (the source applies
`.lower()` to the captured group). -/
def matchUnit (cs : List Char) : Option (List Char) :=
  match cs with
  | [g] => if g = 'g' ∨ g = 'G' then some ['g'] else none
  | [k, g] =>
      if (k = 'k' ∨ k = 'K') ∧ (g = 'g' ∨ g = 'G') then some ['k', 'g'] else none
  | _ => none

/-- Match `\s*(g|kg)$` after the numeral; returns (numeral chars, unit). -/
def matchAfterNum (nm : List Char) (rest : List Char) : Option (List Char × List Char) :=
  match matchUnit (rest.dropWhile pyIsSpace) with
  | some u => some (nm, u)
  | none => none

/-- Match `(\d+(?:\.\d+)?)\s*(g|kg)$`.  The optional fraction group requires at
least one digit after the dot; when that fails the engine drops the group and
continues from the dot (which then cannot match `\s*(g|kg)$`, but we keep the
engine's exact control flow). -/
def matchNum (cs : List Char) : Option (List Char × List Char) :=
  let ds := cs.takeWhile Char.isDigit
  let r1 := cs.dropWhile Char.isDigit
  if ds = [] then none
  else if r1.head? = some '.' then
    let fs := r1.tail.takeWhile Char.isDigit
    let r3 := r1.tail.dropWhile Char.isDigit
    if fs = [] then matchAfterNum ds r1
    else matchAfterNum (ds ++ '.' :: fs) r3
  else matchAfterNum ds r1

/-- Match `\s+(\d+(?:\.\d+)?)\s*(g|kg)$`. -/
def matchTail (cs : List Char) : Option (List Char × List Char) :=
  match cs with
  | [] => none
  | c :: rest => if pyIsSpace c then matchNum (rest.dropWhile pyIsSpace) else none

/-- The lazy scan of `(.+?)`: `acc` holds the group-1 characters consumed so far
(in reverse); at each position first try to match the tail, otherwise extend
group 1 by one non-newline character (`.` does not match a newline). -/
def scanName (acc rest : List Char) : Option (List Char × List Char × List Char) :=
  match rest with
  | [] => none
  | c :: rest' =>
    match matchTail (c :: rest') with
    | some (nm, u) => some (acc.reverse, nm, u)
    | none => if c = '\n' then none else scanName (c :: acc) rest'

/-- `re.match` of the full pattern `^(.+?)\s+(\d+(?:\.\d+)?)\s*(g|kg)$`
(IGNORECASE) against `cs`; on success returns (group 1, group 2, lowered group 3). -/
def weightRegexMatch (cs : List Char) : Option (List Char × List Char × List Char) :=
  match cs with
  | [] => none
  | c :: rest => if c = '\n' then none else scanName [c] rest

/-- `GroceryTool._parse_item_with_weight`: returns
(item name, optional weight amount, optional lower-cased unit). -/
def parseItemWithWeight (item : List Char) : List Char × Option ℚ × Option (List Char) :=
  let s := pyStripList item
  match weightRegexMatch s with
  | some (name, nm, u) => (pyStripList name, some (numValue nm), some u)
  | none => (s, none, none)

/-! ### Rounding

Python's `round(x, 2)` rounds half to even.  On the exact rationals modelling
the source's floats this is the banker's rounding below. -/

/-- Python `round` to an integer: nearest integer, ties to even. -/
def pyRoundInt (x : ℚ) : ℤ :=
  let f := Int.floor x
  let r := x - (f : ℚ)
  if r < 1/2 then f
  else if 1/2 < r then f + 1
  else if f % 2 = 0 then f else f + 1

/-- Python `round(x, 2)`. -/
def round2 (x : ℚ) : ℚ := (pyRoundInt (x * 100) : ℚ) / 100

/-! ### The per-kilogram reference-price searches

`_calculate_price_for_weight` uses `re.search(r'\$(\d+\.?\d*)\s*per\s*1?kg', u)`
(case-sensitive); `_calculate_woolworths_price_for_weight` uses
`re.search(r'\$(\d+\.?\d*)\s*/\s*1?kg', u, re.IGNORECASE)`.
`_search_coles` uses `re.search(r'\$(\d+\.?\d*)', comparable)`.

`re.search` tries each start position from the left; a match must begin at a
literal `$`.  After the `$`, every sub-match is forced: `\d+` and `\d*` are
maximal digit runs, `\.?` consumes a dot whenever present (backtracking cannot
help since the following atoms reject a dot or digit), `\s*` is a maximal
whitespace run, and `1?kg` consumes an optional `1` (a `1` can never satisfy
the `k` of `kg`, so skipping a present `1` never succeeds either). -/

/-- Consume one literal letter, case-insensitively when `ci` is true. -/
def charMatches (ci : Bool) (pat c : Char) : Bool :=
  if ci then c = pat ∨ c = Char.ofNat (pat.toNat - 32) else c = pat
-- (the patterns only contain lowercase letters and '/'; for '/' both sides agree)

/-- Consume a literal string `lit` at the head of `cs`. -/
def dropLit (ci : Bool) (lit cs : List Char) : Option (List Char) :=
  match lit, cs with
  | [], _ => some cs
  | _ :: _, [] => none
  | p :: ps, c :: rest => if charMatches ci p c then dropLit ci ps rest else none

/-- Capture group `(\d+\.?\d*)` at the head of `cs`:
maximal digits, an optional dot, then maximal digits. -/
def numGroup (cs : List Char) : Option (List Char × List Char) :=
  let ds := cs.takeWhile Char.isDigit
  let r1 := cs.dropWhile Char.isDigit
  if ds = [] then none
  else if r1.head? = some '.' then
    some (ds ++ '.' :: r1.tail.takeWhile Char.isDigit, r1.tail.dropWhile Char.isDigit)
  else some (ds, r1)

/-- After a `$`: match `(\d+\.?\d*)\s*<sep>\s*1?kg` and return the captured
numeral. -/
def tryPerKgAt (ci : Bool) (sep : List Char) (cs : List Char) : Option (List Char) :=
  match numGroup cs with
  | none => none
  | some (nm, r2) =>
    match dropLit ci sep (r2.dropWhile pyIsSpace) with
    | none => none
    | some r4 =>
      let r5 := r4.dropWhile pyIsSpace
      if r5.head? = some '1' then
        if (dropLit ci ['k', 'g'] r5.tail).isSome then some nm else none
      else if (dropLit ci ['k', 'g'] r5).isSome then some nm else none

/-- `re.search(r'\$(\d+\.?\d*)\s*<sep>\s*1?kg', cs)`: scan left to right for a
`$` where the tail matches, and return `float(group(1))`. -/
def perKgSearch (ci : Bool) (sep : List Char) : List Char → Option ℚ
  | [] => none
  | c :: rest =>
    if c = '$' then
      match tryPerKgAt ci sep rest with
      | some nm => some (numValue nm)
      | none => perKgSearch ci sep rest
    else perKgSearch ci sep rest

/-- The Coles per-kg reference search (case-SENSITIVE, separator `per`). -/
def colesPerKg (cs : List Char) : Option ℚ := perKgSearch false ['p', 'e', 'r'] cs

/-- The Woolworths per-kg reference search (case-insensitive, separator `/`). -/
def wooliesPerKg (cs : List Char) : Option ℚ := perKgSearch true ['/'] cs

/-- `re.search(r'\$(\d+\.?\d*)', cs)`: first dollar sign followed by a numeral. -/
def priceSearch : List Char → Option ℚ
  | [] => none
  | c :: rest =>
    if c = '$' then
      match numGroup rest with
      | some (nm, _) => some (numValue nm)
      | none => priceSearch rest
    else priceSearch rest

/-! ### Product data and the weight normalizers -/

/-- A retailer product dict as built by `_search_coles` / `_search_woolworths`.
`is_weighted` is `none` when the dict has no such key (always the case for
Woolworths results). -/
structure ProductData where
  description : String
  price : ℚ
  unit : List Char
  is_weighted : Option Bool := none
  deriving Repr, DecidableEq

/-- The structured content of the `note` f-strings added by the normalizers
(float-to-string formatting is abstracted to the interpolated values). -/
inductive CalcNote where
  /-- "Fixed package price (requested {w}{u})" -/
  | fixedPackage (w : ℚ) (u : List Char)
  /-- "Could not calculate for {w}{u}, showing package price" -/
  | couldNotCalc (w : ℚ) (u : List Char)
  deriving Repr, DecidableEq

/-- A normalized product dict: the original keys, a possibly overridden
`price`, and the keys the normalizers may add. -/
structure NormalizedData where
  description : String
  price : ℚ
  unit : List Char
  is_weighted : Option Bool := none
  note : Option CalcNote := none
  calculated_for : Option (ℚ × List Char) := none
  original_per_kg_price : Option ℚ := none
  deriving Repr, DecidableEq

/-- A product dict viewed as a normalized dict with no added keys. -/
def ProductData.toNormalized (pd : ProductData) : NormalizedData :=
  { description := pd.description, price := pd.price, unit := pd.unit
    is_weighted := pd.is_weighted }

/-- Requested-weight-to-kilograms conversion shared by both normalizers:
`g`/`gram`/`grams` divide by 1000, `kg`/`kilo`/`kilos`/`kilogram` pass
through, anything else defaults to the gram conversion. -/
def weightInKg (w : ℚ) (u : List Char) : ℚ :=
  if u = ['g'] ∨ u = "gram".toList ∨ u = "grams".toList then w / 1000
  else if u = "kg".toList ∨ u = "kilo".toList ∨ u = "kilos".toList ∨
      u = "kilogram".toList then w
  else w / 1000

/-- `GroceryTool._calculate_price_for_weight` (the Coles normalizer). -/
def calcColes (pd : ProductData) (w : ℚ) (u : List Char) : NormalizedData :=
  if pd.is_weighted ≠ some true then
    { pd.toNormalized with note := some (.fixedPackage w u) }
  else
    match colesPerKg pd.unit with
    | some perKg =>
        { pd.toNormalized with
          price := round2 (perKg * weightInKg w u)
          calculated_for := some (w, u)
          original_per_kg_price := some perKg }
    | none => { pd.toNormalized with note := some (.couldNotCalc w u) }

/-- `GroceryTool._calculate_woolworths_price_for_weight` (the Woolworths
normalizer; note: it never consults `is_weighted`). -/
def calcWoolies (pd : ProductData) (w : ℚ) (u : List Char) : NormalizedData :=
  match wooliesPerKg pd.unit with
  | some perKg =>
      { pd.toNormalized with
        price := round2 (perKg * weightInKg w u)
        calculated_for := some (w, u)
        original_per_kg_price := some perKg }
  | none => { pd.toNormalized with note := some (.couldNotCalc w u) }

/-! ### Coles search-response parsing (`_search_coles`) -/

/-- The pricing sub-object of a Coles search entry.  `unitIsWeighted` models
`item["pricing"].get("unit", {}).get("isWeighted", False)` collapsed to one
optional lookup (absent `unit` and absent `isWeighted` both yield `none`). -/
structure ColesPricing where
  unitIsWeighted : Option Bool := none
  comparable : Option String := none
  now : Option ℚ := none
  deriving Repr, DecidableEq

/-- One entry of `data["pageProps"]["searchResults"]["results"]`. -/
structure ColesEntry where
  typ : Option String := none
  description : Option String := none
  pricing : Option ColesPricing := none
  deriving Repr, DecidableEq

/-- Python truthiness of the optional `comparable` string
(`None` and the empty string are falsy). -/
def comparableTruthy (s : Option String) : Bool :=
  match s with
  | some s => s ≠ ""
  | none => false

/-- The quote `_search_coles` builds from one PRODUCT entry (the body of the
loop after the `_type` test): try the weighted-comparable parse, then fall
back to the `now` price; `none` when neither applies. -/
def tryQuoteOfEntry (e : ColesEntry) : Option ProductData :=
  let pricing := e.pricing.getD {}
  let desc := e.description.getD "<no description>"
  let isW := pricing.unitIsWeighted.getD false
  let nowQuote : Option ProductData :=
    match pricing.now with
    | some p =>
        some { description := desc, price := p
               unit := (if comparableTruthy pricing.comparable then
                   pricing.comparable.getD "" else "").toList
               is_weighted := some isW }
    | none => none
  if comparableTruthy pricing.comparable ∧ isW = true then
    match priceSearch (pricing.comparable.getD "").toList with
    | some p =>
        some { description := desc, price := p
               unit := (pricing.comparable.getD "").toList, is_weighted := some true }
    | none => nowQuote
  else nowQuote

/-- The `for item in results` loop of `_search_coles`: the first PRODUCT entry
that yields a quote wins; entries yielding no quote are passed over. -/
def colesResultsScan : List ColesEntry → Option ProductData
  | [] => none
  | e :: rest =>
    if e.typ = some "PRODUCT" then
      match tryQuoteOfEntry e with
      | some q => some q
      | none => colesResultsScan rest
    else colesResultsScan rest

/-- `_search_coles` at the level of an already-fetched response: the
surrounding `try/except` converts any failure into `None`. -/
def searchColes (resp : Except String (List ColesEntry)) : Option ProductData :=
  match resp with
  | .ok rs => colesResultsScan rs
  | .error _ => none

/-- The claim's reading of the parsing policy, following the spec's words:
select the first entry tagged as a product and form the quote from that entry
alone (absent when it yields none).  Compared against `colesResultsScan`. -/
def specColesSelectFirstProduct (rs : List ColesEntry) : Option ProductData :=
  match rs.find? (fun e => e.typ = some "PRODUCT") with
  | some e => tryQuoteOfEntry e
  | none => none

/-! ### The memoized build identifier (`@cache _get_coles_build_id`) -/

/-- One call to the `functools.cache`-wrapped `_get_coles_build_id`, given the
current cache contents and the outcome the underlying fetch would have.
Returns (call result, new cache contents, whether the fetch was issued).
`functools.cache` stores successful results only; an exception leaves the
cache empty. -/
def buildIdStep (cached : Option String) (fetch : Except String String) :
    Except String String × Option String × Bool :=
  match cached with
  | some v => (.ok v, some v, false)
  | none =>
    match fetch with
    | .ok v => (.ok v, some v, true)
    | .error e => (.error e, none, true)

/-- A sequence of calls: each list element is the outcome the landing-page
fetch would have if issued on that call.  Returns, per call, the call's result
and whether it issued the fetch. -/
def buildIdTrace : Option String → List (Except String String) →
    List (Except String String × Bool)
  | _, [] => []
  | st, f :: fs =>
    let (r, st', fetched) := buildIdStep st f
    (r, fetched) :: buildIdTrace st' fs

/-- A call that issued the fetch and got the identifier. -/
def isSuccessfulFetch (p : Except String String × Bool) : Bool :=
  p.2 && (match p.1 with | .ok _ => true | .error _ => false)

/-! ### The comparison aggregator (`compare_grocery_prices`) -/

/-- One retailer cell of a comparison row, Coles side (the dict literal at the
`item_comparison["coles"]` assignment; `is_weighted` is read with default
`False`). -/
structure ColesCell where
  description : String
  price : ℚ
  unit : List Char
  is_weighted : Bool
  note : Option CalcNote := none
  calculated_for : Option (ℚ × List Char) := none
  original_per_kg_price : Option ℚ := none
  deriving Repr, DecidableEq

/-- Woolworths cell: same keys except `is_weighted`, which is never copied. -/
structure WooliesCell where
  description : String
  price : ℚ
  unit : List Char
  note : Option CalcNote := none
  calculated_for : Option (ℚ × List Char) := none
  original_per_kg_price : Option ℚ := none
  deriving Repr, DecidableEq

def cellOfColes (nd : NormalizedData) : ColesCell :=
  { description := nd.description, price := nd.price, unit := nd.unit
    is_weighted := nd.is_weighted.getD false, note := nd.note
    calculated_for := nd.calculated_for
    original_per_kg_price := nd.original_per_kg_price }

def cellOfWoolies (nd : NormalizedData) : WooliesCell :=
  { description := nd.description, price := nd.price, unit := nd.unit
    note := nd.note, calculated_for := nd.calculated_for
    original_per_kg_price := nd.original_per_kg_price }

/-- One element of `comparison_results`.  `requested_amount` keeps the
interpolated values of the f-string. -/
structure CompareRow where
  item : String
  item_name : List Char
  requested_amount : Option (ℚ × List Char)
  coles : Option ColesCell
  woolworths : Option WooliesCell
  deriving Repr, DecidableEq

/-- The `summary` dict. -/
structure CompareSummary where
  coles_total : ℚ
  woolworths_total : ℚ
  cheaper_store : Option String
  savings : ℚ
  deriving Repr, DecidableEq

/-- Lines 304-315: totals are rounded for display; the cheaper-store verdict
and savings are set only when both raw totals are strictly positive. -/
def computeSummary (colesTotal wooliesTotal : ℚ) : CompareSummary :=
  let base : CompareSummary :=
    { coles_total := round2 colesTotal, woolworths_total := round2 wooliesTotal
      cheaper_store := none, savings := 0 }
  if colesTotal > 0 ∧ wooliesTotal > 0 then
    { base with
      cheaper_store := some (if colesTotal < wooliesTotal then "Coles" else "Woolworths")
      savings := round2 |colesTotal - wooliesTotal| }
  else base

/-- The top-level result dict: the failure branch carries only `status` and
`message`, so every other key is optional. -/
structure CompareResult where
  status : String
  message : Option String := none
  items_compared : Option Nat := none
  results : Option (List CompareRow) := none
  summary : Option CompareSummary := none
  deriving Repr, DecidableEq

/-- Python truthiness of the parsed weight (`if requested_weight ...`):
`None` and `0.0` are falsy. -/
def weightTruthy (w : Option ℚ) : Bool :=
  match w with
  | some w => w ≠ 0
  | none => false

/-- Python truthiness of the parsed unit (`... and weight_unit`). -/
def unitTruthy (u : Option (List Char)) : Bool :=
  match u with
  | some u => u ≠ []
  | none => false

/-- One iteration of the per-item loop.  The two retailer searches are
oracles (they depend on live HTTP responses); each may also raise, which the
outer `try` of `compare_grocery_prices` turns into a failed result.  Returns
the comparison row and the two amounts added to the running totals. -/
def processItem (searchC searchW : List Char → Except String (Option ProductData))
    (item : String) : Except String (CompareRow × ℚ × ℚ) :=
  match parseItemWithWeight item.toList with
  | (itemName, w?, u?) =>
    match searchC itemName with
    | .error e => .error e
    | .ok colesRes =>
      match searchW itemName with
      | .error e => .error e
      | .ok wooliesRes =>
        let doCalc := weightTruthy w? && unitTruthy u?
        let (colesCell, colesAdd) :=
          match colesRes with
          | none => (none, 0)
          | some pd =>
            let proc := if doCalc then calcColes pd (w?.getD 0) (u?.getD []) else pd.toNormalized
            (some (cellOfColes proc), proc.price)
        let (wooliesCell, wooliesAdd) :=
          match wooliesRes with
          | none => (none, 0)
          | some pd =>
            let proc := if doCalc then calcWoolies pd (w?.getD 0) (u?.getD []) else pd.toNormalized
            (some (cellOfWoolies proc), proc.price)
        .ok ({ item := item, item_name := itemName
               requested_amount := if weightTruthy w? then some (w?.getD 0, u?.getD []) else none
               coles := colesCell, woolworths := wooliesCell }, colesAdd, wooliesAdd)

/-- The per-item loop with its two running totals. -/
def processItems (searchC searchW : List Char → Except String (Option ProductData)) :
    List String → Except String (List CompareRow × ℚ × ℚ)
  | [] => .ok ([], 0, 0)
  | it :: rest =>
    match processItem searchC searchW it with
    | .error e => .error e
    | .ok (row, ca, wa) =>
      match processItems searchC searchW rest with
      | .error e => .error e
      | .ok (rows, cts, wts) => .ok (row :: rows, ca + cts, wa + wts)

/-- The body of the `try` block of `compare_grocery_prices`: fetch the build
identifier once, run the loop, assemble the success payload. -/
def compareInner (buildFetch : Except String String)
    (searchC searchW : List Char → Except String (Option ProductData))
    (items : List String) : Except String CompareResult :=
  match buildFetch with
  | .error e => .error e
  | .ok _buildId =>
    match processItems searchC searchW items with
    | .error e => .error e
    | .ok (rows, ct, wt) =>
      .ok { status := "success", items_compared := some items.length
            results := some rows, summary := some (computeSummary ct wt) }

/-- `compare_grocery_prices`: the `except Exception` boundary converts any
failure inside the `try` block into a `status = "failed"` payload carrying only
a diagnostic message. -/
def compareGroceryPrices (buildFetch : Except String String)
    (searchC searchW : List Char → Except String (Option ProductData))
    (items : List String) : CompareResult :=
  match compareInner buildFetch searchC searchW items with
  | .ok r => r
  | .error e => { status := "failed", message := some ("Error comparing prices: " ++ e) }

/-! ### Concrete instances used by the testable-property examples -/

/-- Retailer A oracle for the aggregator-totals example: quotes of 2.50 and
3.00 for the two items. -/
def exSearchColes : List Char → Except String (Option ProductData) := fun nm =>
  if nm = "apple".toList then
    .ok (some { description := "apple", price := 5/2, unit := [] })
  else .ok (some { description := "banana", price := 3, unit := [] })

/-- Retailer B oracle for the aggregator-totals example: no quotes at all. -/
def exSearchWoolies : List Char → Except String (Option ProductData) := fun _ => .ok none

/-- A PRODUCT-tagged Coles entry from which no quote can be formed
(no pricing at all). -/
def entryNoQuote : ColesEntry := { typ := some "PRODUCT" }

/-- A later PRODUCT-tagged Coles entry with a plain `now` price. -/
def entryWithNow : ColesEntry :=
  { typ := some "PRODUCT", description := some "second", pricing := some { now := some 3 } }

/-- A weighted quote whose unit label carries no per-kg pattern. -/
def exNoPatternQuote : ProductData :=
  { description := "x", price := 7, unit := "each".toList, is_weighted := some true }

/-- A Woolworths quote (no weighted flag) whose CupString carries the per-kg
pattern from the spec's normalizer example. -/
def exWooliesQuote : ProductData :=
  { description := "x", price := 10, unit := "$11.50 / 1KG".toList }

/-- A weighted Coles quote whose unit label has the per-kg text in upper case. -/
def exColesUpperQuote : ProductData :=
  { description := "x", price := 99, unit := "$5 per 1KG".toList, is_weighted := some true }

/-! ### List and character helper lemmas -/

theorem dropWhile_append_all {p : Char → Bool} {l₁ l₂ : List Char}
    (h : ∀ c ∈ l₁, p c = true) :
    (l₁ ++ l₂).dropWhile p = l₂.dropWhile p := by
  rw [List.dropWhile_append, if_pos]
  rw [List.isEmpty_iff, List.dropWhile_eq_nil_iff]
  exact h

theorem dropWhile_append_not_all {p : Char → Bool} {l₁ l₂ : List Char}
    (h : l₁.dropWhile p ≠ []) :
    (l₁ ++ l₂).dropWhile p = l₁.dropWhile p ++ l₂ := by
  rw [List.dropWhile_append, if_neg]
  simp only [List.isEmpty_iff]
  exact h

theorem takeWhile_append_all {p : Char → Bool} {l₁ l₂ : List Char}
    (h : ∀ c ∈ l₁, p c = true) :
    (l₁ ++ l₂).takeWhile p = l₁ ++ l₂.takeWhile p := by
  rw [List.takeWhile_append, if_pos]
  rw [List.takeWhile_eq_self_iff.2 h]

theorem takeWhile_head_neg {p : Char → Bool} {l : List Char}
    (h : ∀ c, l.head? = some c → p c = false) : l.takeWhile p = [] := by
  cases l with
  | nil => rfl
  | cons a t => exact List.takeWhile_cons_of_neg (by simp [h a rfl])

theorem dropWhile_head_neg {p : Char → Bool} {l : List Char}
    (h : ∀ c, l.head? = some c → p c = false) : l.dropWhile p = l := by
  cases l with
  | nil => rfl
  | cons a t => exact List.dropWhile_cons_of_neg (by simp [h a rfl])

/-- The head of `l.dropWhile p` does not satisfy `p`. -/
theorem dropWhile_head_false {p : Char → Bool} {l : List Char} {c : Char}
    {t : List Char} (h : l.dropWhile p = c :: t) : p c = false := by
  induction l with
  | nil => simp at h
  | cons a l ih =>
    by_cases hpa : p a = true
    · rw [List.dropWhile_cons_of_pos hpa] at h
      exact ih h
    · rw [List.dropWhile_cons_of_neg hpa] at h
      cases h
      simpa using hpa

/-- Dropping trailing whitespace ignores an appended all-whitespace suffix. -/
theorem pyStripEnd_append_space {l t : List Char} (h : ∀ c ∈ t, pyIsSpace c = true) :
    pyStripEnd (l ++ t) = pyStripEnd l := by
  unfold pyStripEnd
  rw [List.reverse_append, dropWhile_append_all (by simpa using h)]

/-- `str.strip()` ignores an appended all-whitespace suffix. -/
theorem pyStripList_append_space {l t : List Char} (h : ∀ c ∈ t, pyIsSpace c = true) :
    pyStripList (l ++ t) = pyStripList l := by
  unfold pyStripList
  by_cases hall : l.dropWhile pyIsSpace = []
  · rw [dropWhile_append_all (List.dropWhile_eq_nil_iff.1 hall), hall,
      List.dropWhile_eq_nil_iff.2 h]
  · rw [dropWhile_append_not_all hall, List.reverse_append,
      dropWhile_append_all (by simpa using h)]

/-- The six characters `pyIsSpace` accepts. -/
theorem pyIsSpace_cases {c : Char} (h : pyIsSpace c = true) :
    c = ' ' ∨ c = '\t' ∨ c = '\n' ∨ c = '\r' ∨ c = '\x0b' ∨ c = '\x0c' := by
  simpa [pyIsSpace, or_assoc] using h

/-- A digit is none of the characters the matchers treat specially. -/
theorem isDigit_facts {c : Char} (h : c.isDigit = true) :
    c ≠ 'g' ∧ c ≠ 'G' ∧ c ≠ 'k' ∧ c ≠ 'K' ∧ c ≠ '.' ∧ c ≠ '\n' ∧
      pyIsSpace c = false := by
  refine ⟨?_, ?_, ?_, ?_, ?_, ?_, ?_⟩
  · intro hc; subst hc; exact absurd h (by decide)
  · intro hc; subst hc; exact absurd h (by decide)
  · intro hc; subst hc; exact absurd h (by decide)
  · intro hc; subst hc; exact absurd h (by decide)
  · intro hc; subst hc; exact absurd h (by decide)
  · intro hc; subst hc; exact absurd h (by decide)
  · cases hsp : pyIsSpace c with
    | false => rfl
    | true =>
      rcases pyIsSpace_cases hsp with hc | hc | hc | hc | hc | hc <;>
        (subst hc; exact absurd h (by decide))

/-- A `g`/`k` case-variant is not whitespace. -/
theorem unitChar_not_space {c : Char}
    (h : c = 'g' ∨ c = 'G' ∨ c = 'k' ∨ c = 'K') : pyIsSpace c = false := by
  rcases h with h | h | h | h <;> subst h <;> decide

/-! ### Correctness of the item-parser regex embedding -/

/-- The weight-unit token: a case variant of `g` or `kg`. -/
def UnitShape (u : List Char) : Prop :=
  u = ['g'] ∨ u = ['G'] ∨ u = ['k', 'g'] ∨ u = ['k', 'G'] ∨
    u = ['K', 'g'] ∨ u = ['K', 'G']

/-- The characters of the numeral token `\d+(\.\d+)?`: integer digits and an
optional dot-separated fraction. -/
def numToken (ds : List Char) (frac : Option (List Char)) : List Char :=
  ds ++ (match frac with | none => [] | some fs => '.' :: fs)

/-- The value the numeral token denotes. -/
def fracValue (frac : Option (List Char)) : ℚ :=
  match frac with
  | none => 0
  | some fs => (digitsToNat fs : ℚ) / (10 : ℚ) ^ fs.length

/-- What `.lower()` makes of a matched unit token. -/
def lowerUnit (u : List Char) : List Char :=
  if u.length = 1 then ['g'] else ['k', 'g']

/-- The shape hypotheses on the trailing-weight part `\s+(\d+(?:\.\d+)?)\s*(g|kg)`
of a matching input. -/
structure WeightTail (ws ds : List Char) (frac : Option (List Char))
    (ws2 u : List Char) : Prop where
  ws_ne : ws ≠ []
  ws_sp : ∀ c ∈ ws, pyIsSpace c = true
  ds_ne : ds ≠ []
  ds_dig : ∀ c ∈ ds, c.isDigit = true
  frac_dig : ∀ fs, frac = some fs → fs ≠ [] ∧ ∀ c ∈ fs, c.isDigit = true
  ws2_sp : ∀ c ∈ ws2, pyIsSpace c = true
  unit_shape : UnitShape u

theorem UnitShape.head_facts {u : List Char} (h : UnitShape u) :
    ∃ uh ut, u = uh :: ut ∧ pyIsSpace uh = false ∧ uh.isDigit = false ∧
      uh ≠ '.' ∧ uh ≠ '\n' := by
  rcases h with h | h | h | h | h | h <;> subst h <;>
    exact ⟨_, _, rfl, by decide, by decide, by decide, by decide⟩

theorem UnitShape.ne_nil {u : List Char} (h : UnitShape u) : u ≠ [] := by
  rcases h.head_facts with ⟨uh, ut, rfl, -⟩
  simp

theorem UnitShape.getLast_not_space {u : List Char} (h : UnitShape u) :
    ∃ a, u.getLast? = some a ∧ pyIsSpace a = false := by
  rcases h with h | h | h | h | h | h <;> subst h <;> exact ⟨_, rfl, by decide⟩

theorem matchUnit_of_shape {u : List Char} (h : UnitShape u) :
    matchUnit u = some (lowerUnit u) := by
  rcases h with h | h | h | h | h | h <;> subst h <;> decide

/-- Whitespace is not a digit. -/
theorem isSpace_not_digit {c : Char} (h : pyIsSpace c = true) : c.isDigit = false := by
  rcases pyIsSpace_cases h with hc | hc | hc | hc | hc | hc <;> subst hc <;> decide

/-- Whitespace is not a dot. -/
theorem isSpace_ne_dot {c : Char} (h : pyIsSpace c = true) : c ≠ '.' := by
  rcases pyIsSpace_cases h with hc | hc | hc | hc | hc | hc <;> subst hc <;> decide

theorem matchUnit_digit_head {a : Char} {l : List Char} (h : a.isDigit = true) :
    matchUnit (a :: l) = none := by
  obtain ⟨hg, hG, hk, hK, -⟩ := isDigit_facts h
  match l with
  | [] => simp [matchUnit, hg, hG]
  | [b] => simp [matchUnit, hk, hK]
  | b :: c :: t => rfl

theorem matchUnit_none_of_long {l : List Char} (h : 3 ≤ l.length) :
    matchUnit l = none := by
  match l with
  | [] => simp at h
  | [a] => simp at h
  | [a, b] => simp at h
  | a :: b :: c :: t => rfl

/-- `float()` on the numeral token evaluates to integer part plus fraction. -/
theorem numValue_numToken {ds : List Char} {frac : Option (List Char)}
    (hdig : ∀ c ∈ ds, c.isDigit = true)
    (hfrac : ∀ fs, frac = some fs → ∀ c ∈ fs, c.isDigit = true) :
    numValue (numToken ds frac) = (digitsToNat ds : ℚ) + fracValue frac := by
  cases frac with
  | none =>
    simp only [numToken, List.append_nil, fracValue, add_zero]
    unfold numValue
    rw [List.takeWhile_eq_self_iff.2 hdig, List.dropWhile_eq_nil_iff.2 hdig]
  | some fs =>
    have hfs : ∀ c ∈ fs, c.isDigit = true := hfrac fs rfl
    simp only [numToken, fracValue]
    unfold numValue
    rw [takeWhile_append_all hdig, dropWhile_append_all hdig,
      List.takeWhile_cons_of_neg (by decide), List.dropWhile_cons_of_neg (by decide),
      List.append_nil]

/-- The head of `ws2 ++ u` is neither a digit nor a dot. -/
theorem ws2u_head_facts {ws2 u : List Char}
    (hws2 : ∀ c ∈ ws2, pyIsSpace c = true) (hu : UnitShape u) :
    ∀ c, (ws2 ++ u).head? = some c → c.isDigit = false ∧ c ≠ '.' := by
  intro c hc
  cases ws2 with
  | nil =>
    obtain ⟨uh, ut, rfl, -, hd, hdot, -⟩ := hu.head_facts
    simp only [List.nil_append, List.head?_cons, Option.some_inj] at hc
    subst hc
    exact ⟨hd, hdot⟩
  | cons a t =>
    simp only [List.cons_append, List.head?_cons, Option.some_inj] at hc
    subst hc
    have ha := hws2 a (by simp)
    exact ⟨isSpace_not_digit ha, isSpace_ne_dot ha⟩

theorem takeWhile_digit_dot (l : List Char) :
    List.takeWhile Char.isDigit ('.' :: l) = [] :=
  List.takeWhile_cons_of_neg (by decide)

theorem dropWhile_digit_dot (l : List Char) :
    List.dropWhile Char.isDigit ('.' :: l) = '.' :: l :=
  List.dropWhile_cons_of_neg (by decide)

theorem matchAfterNum_canonical {nm ws2 u : List Char}
    (hws2 : ∀ c ∈ ws2, pyIsSpace c = true) (hu : UnitShape u) :
    matchAfterNum nm (ws2 ++ u) = some (nm, lowerUnit u) := by
  obtain ⟨uh, ut, hueq, hsp, -⟩ := hu.head_facts
  unfold matchAfterNum
  rw [dropWhile_append_all hws2,
    dropWhile_head_neg (by
      intro c hc
      rw [hueq] at hc
      simp only [List.head?_cons, Option.some_inj] at hc
      subst hc
      exact hsp),
    matchUnit_of_shape hu]

theorem matchNum_canonical {ds ws2 u : List Char} {frac : Option (List Char)}
    (hds : ds ≠ []) (hdig : ∀ c ∈ ds, c.isDigit = true)
    (hfrac : ∀ fs, frac = some fs → fs ≠ [] ∧ ∀ c ∈ fs, c.isDigit = true)
    (hws2 : ∀ c ∈ ws2, pyIsSpace c = true) (hu : UnitShape u) :
    matchNum (numToken ds frac ++ (ws2 ++ u)) = some (numToken ds frac, lowerUnit u) := by
  have hw2u_nd : ∀ c, (ws2 ++ u).head? = some c → Char.isDigit c = false :=
    fun c hc => (ws2u_head_facts hws2 hu c hc).1
  have hw2u_dot : (ws2 ++ u).head? ≠ some '.' := by
    intro hc
    exact absurd rfl (ws2u_head_facts hws2 hu '.' hc).2
  cases frac with
  | none =>
    simp only [numToken, List.append_nil]
    unfold matchNum
    simp only [takeWhile_append_all hdig, dropWhile_append_all hdig,
      takeWhile_head_neg hw2u_nd, dropWhile_head_neg hw2u_nd, List.append_nil]
    rw [if_neg hds, if_neg hw2u_dot]
    exact matchAfterNum_canonical hws2 hu
  | some fs =>
    obtain ⟨hfs_ne, hfs_dig⟩ := hfrac fs rfl
    simp only [numToken]
    rw [List.append_assoc, List.cons_append]
    unfold matchNum
    simp only [takeWhile_append_all hdig, dropWhile_append_all hdig,
      takeWhile_digit_dot, dropWhile_digit_dot,
      List.append_nil, List.head?_cons, List.tail_cons]
    rw [if_pos trivial]
    simp only [takeWhile_append_all hfs_dig, dropWhile_append_all hfs_dig,
      takeWhile_head_neg hw2u_nd, dropWhile_head_neg hw2u_nd, List.append_nil]
    rw [if_neg hfs_ne, if_neg hds]
    exact matchAfterNum_canonical hws2 hu

theorem numToken_append_cons {ds : List Char} {frac : Option (List Char)}
    (hds : ds ≠ []) (hdig : ∀ c ∈ ds, c.isDigit = true) (l : List Char) :
    ∃ d dr, numToken ds frac ++ l = d :: dr ∧ d.isDigit = true := by
  cases ds with
  | nil => exact absurd rfl hds
  | cons d dr =>
    refine ⟨d, dr ++ ((match frac with | none => [] | some fs => '.' :: fs) ++ l),
      ?_, hdig d (by simp)⟩
    simp [numToken]

theorem matchTail_canonical {ws ds ws2 u : List Char} {frac : Option (List Char)}
    (h : WeightTail ws ds frac ws2 u) :
    matchTail (ws ++ (numToken ds frac ++ (ws2 ++ u))) =
      some (numToken ds frac, lowerUnit u) := by
  obtain ⟨d, dr, hnt, hd⟩ := numToken_append_cons h.ds_ne h.ds_dig (ws2 ++ u)
  cases ws with
  | nil => exact absurd rfl h.ws_ne
  | cons w0 wr =>
    have hw0 : pyIsSpace w0 = true := h.ws_sp w0 (by simp)
    have hwr : ∀ c ∈ wr, pyIsSpace c = true := fun c hc => h.ws_sp c (by simp [hc])
    rw [List.cons_append]
    simp only [matchTail]
    rw [if_pos hw0, dropWhile_append_all hwr, hnt,
      List.dropWhile_cons_of_neg (by simp [(isDigit_facts hd).2.2.2.2.2.2]), ← hnt]
    exact matchNum_canonical h.ds_ne h.ds_dig h.frac_dig h.ws2_sp h.unit_shape

/-- Head facts for the canonical tail `ws ++ (numToken ++ (ws2 ++ u))`. -/
theorem tail_head_facts {ws ds ws2 u : List Char} {frac : Option (List Char)}
    (h : WeightTail ws ds frac ws2 u) :
    ∀ c, (ws ++ (numToken ds frac ++ (ws2 ++ u))).head? = some c →
      pyIsSpace c = true ∧ c.isDigit = false ∧ c ≠ '.' := by
  intro c hc
  cases ws with
  | nil => exact absurd rfl h.ws_ne
  | cons w0 wr =>
    simp only [List.cons_append, List.head?_cons, Option.some_inj] at hc
    subst hc
    have hw0 : pyIsSpace w0 = true := h.ws_sp w0 (by simp)
    exact ⟨hw0, isSpace_not_digit hw0, isSpace_ne_dot hw0⟩

/-- Lower bound on the canonical tail's length. -/
theorem tail_length_ge {ws ds ws2 u : List Char} {frac : Option (List Char)}
    (h : WeightTail ws ds frac ws2 u) :
    3 ≤ (ws ++ (numToken ds frac ++ (ws2 ++ u))).length := by
  have h1 : 1 ≤ ws.length := List.length_pos.2 h.ws_ne
  have h2 : 1 ≤ (numToken ds frac).length := by
    have := List.length_pos.2 h.ds_ne
    simp only [numToken, List.length_append]
    omega
  have h3 : 1 ≤ u.length := by
    rcases h.unit_shape with hh | hh | hh | hh | hh | hh <;> subst hh <;> simp
  simp only [List.length_append]
  omega

theorem matchAfterNum_tail_none {ws ds ws2 u : List Char} {frac : Option (List Char)}
    (h : WeightTail ws ds frac ws2 u) (nm w : List Char) :
    matchAfterNum nm (w ++ (ws ++ (numToken ds frac ++ (ws2 ++ u)))) = none := by
  unfold matchAfterNum
  by_cases hw : w.dropWhile pyIsSpace = []
  · rw [dropWhile_append_all (List.dropWhile_eq_nil_iff.1 hw), dropWhile_append_all h.ws_sp]
    obtain ⟨d, dr, hnt, hd⟩ := numToken_append_cons h.ds_ne h.ds_dig (ws2 ++ u)
    rw [hnt, List.dropWhile_cons_of_neg (by simp [(isDigit_facts hd).2.2.2.2.2.2]),
      matchUnit_digit_head hd]
  · rw [dropWhile_append_not_all hw, matchUnit_none_of_long ?_]
    obtain ⟨a, t, hat⟩ : ∃ a t, w.dropWhile pyIsSpace = a :: t := by
      cases hwd : w.dropWhile pyIsSpace with
      | nil => exact absurd hwd hw
      | cons a t => exact ⟨a, t, rfl⟩
    have := tail_length_ge h
    rw [hat]
    simp only [List.length_append, List.length_cons] at this ⊢
    omega

/-- `takeWhile` over `l ++ t` stops inside `l` when `t`'s head fails `p`. -/
theorem takeWhile_append_head_neg {p : Char → Bool} {l t : List Char}
    (ht : ∀ c, t.head? = some c → p c = false) :
    (l ++ t).takeWhile p = l.takeWhile p := by
  rw [List.takeWhile_append]
  by_cases hl : (l.takeWhile p).length = l.length
  · rw [if_pos hl, takeWhile_head_neg ht, List.append_nil,
      (List.takeWhile_prefix p).eq_of_length hl]
  · rw [if_neg hl]

theorem matchNum_tail_none {ws ds ws2 u : List Char} {frac : Option (List Char)}
    (h : WeightTail ws ds frac ws2 u) (a : Char) (t : List Char) :
    matchNum ((a :: t) ++ (ws ++ (numToken ds frac ++ (ws2 ++ u)))) = none := by
  have hThead := tail_head_facts h
  have huniform : ∀ v : List Char,
      (v ++ (ws ++ (numToken ds frac ++ (ws2 ++ u)))).dropWhile Char.isDigit =
        v.dropWhile Char.isDigit ++ (ws ++ (numToken ds frac ++ (ws2 ++ u))) := by
    intro v
    by_cases hall : v.dropWhile Char.isDigit = []
    · rw [dropWhile_append_all (List.dropWhile_eq_nil_iff.1 hall), hall, List.nil_append,
        dropWhile_head_neg (fun c hc => (hThead c hc).2.1)]
    · exact dropWhile_append_not_all hall
  have hTne_dot : (ws ++ (numToken ds frac ++ (ws2 ++ u))).head? ≠ some '.' :=
    fun hc => absurd rfl (hThead '.' hc).2.2
  unfold matchNum
  by_cases had : a.isDigit = true
  · have hts : List.takeWhile Char.isDigit
        ((a :: t) ++ (ws ++ (numToken ds frac ++ (ws2 ++ u)))) ≠ [] := by
      rw [List.cons_append, List.takeWhile_cons_of_pos had]
      simp
    rw [if_neg hts, huniform (a :: t)]
    rcases hcase : (a :: t).dropWhile Char.isDigit with _ | ⟨b, r⟩
    · rw [List.nil_append, if_neg hTne_dot]
      exact matchAfterNum_tail_none h _ []
    · by_cases hbdot : b = '.'
      · subst hbdot
        rw [if_pos (by simp)]
        simp only [List.cons_append, List.tail_cons]
        rw [takeWhile_append_head_neg (fun c hc => (hThead c hc).2.1), huniform r]
        by_cases hfs : r.takeWhile Char.isDigit = []
        · rw [if_pos hfs]
          exact matchAfterNum_tail_none h _ ('.' :: r)
        · rw [if_neg hfs]
          exact matchAfterNum_tail_none h _ (r.dropWhile Char.isDigit)
      · rw [if_neg (by simp [List.cons_append, hbdot])]
        exact matchAfterNum_tail_none h _ (b :: r)
  · have hts : List.takeWhile Char.isDigit
        ((a :: t) ++ (ws ++ (numToken ds frac ++ (ws2 ++ u)))) = [] := by
      rw [List.cons_append, List.takeWhile_cons_of_neg (by simp [had])]
    rw [if_pos hts]

/-- If the engine's tail pattern matches at a split inside the lazy group,
the skipped-over characters are all whitespace and the captured groups are
the canonical ones. -/
theorem matchTail_append_inv {ws ds ws2 u : List Char} {frac : Option (List Char)}
    (h : WeightTail ws ds frac ws2 u) (m : List Char)
    {r : List Char × List Char}
    (hm : matchTail (m ++ (ws ++ (numToken ds frac ++ (ws2 ++ u)))) = some r) :
    (∀ c ∈ m, pyIsSpace c = true) ∧ r = (numToken ds frac, lowerUnit u) := by
  cases m with
  | nil =>
    rw [List.nil_append, matchTail_canonical h] at hm
    cases hm
    exact ⟨by simp, rfl⟩
  | cons c m' =>
    rw [List.cons_append] at hm
    simp only [matchTail] at hm
    by_cases hc : pyIsSpace c = true
    · rw [if_pos hc] at hm
      by_cases hm' : m'.dropWhile pyIsSpace = []
      · rw [dropWhile_append_all (List.dropWhile_eq_nil_iff.1 hm'),
          dropWhile_append_all h.ws_sp] at hm
        obtain ⟨d, dr, hnt, hd⟩ := numToken_append_cons h.ds_ne h.ds_dig (ws2 ++ u)
        rw [hnt, List.dropWhile_cons_of_neg (by simp [(isDigit_facts hd).2.2.2.2.2.2]),
          ← hnt, matchNum_canonical h.ds_ne h.ds_dig h.frac_dig h.ws2_sp h.unit_shape] at hm
        cases hm
        refine ⟨?_, rfl⟩
        intro x hx
        rcases List.mem_cons.1 hx with rfl | hx
        · exact hc
        · exact (List.dropWhile_eq_nil_iff.1 hm') x hx
      · obtain ⟨a, t, hat⟩ : ∃ a t, m'.dropWhile pyIsSpace = a :: t := by
          cases hwd : m'.dropWhile pyIsSpace with
          | nil => exact absurd hwd hm'
          | cons a t => exact ⟨a, t, rfl⟩
        rw [dropWhile_append_not_all hm', hat, matchNum_tail_none h a t] at hm
        exact absurd hm (by simp)
    · rw [if_neg hc] at hm
      exact absurd hm (by simp)

/-- The lazy scan run over the name part of a matching input: it stops at some
prefix of the name whose dropped remainder is all whitespace, capturing the
canonical numeral and unit. -/
theorem scanName_through {ws ds ws2 u : List Char} {frac : Option (List Char)}
    (h : WeightTail ws ds frac ws2 u) :
    ∀ nm acc : List Char, '\n' ∉ nm →
      ∃ p sp, scanName acc (nm ++ (ws ++ (numToken ds frac ++ (ws2 ++ u)))) =
          some (p, numToken ds frac, lowerUnit u) ∧
        (∀ c ∈ sp, pyIsSpace c = true) ∧ acc.reverse ++ nm = p ++ sp := by
  intro nm
  induction nm with
  | nil =>
    intro acc _
    refine ⟨acc.reverse, [], ?_, by simp, by simp⟩
    rw [List.nil_append]
    obtain ⟨w0, wr, rfl⟩ : ∃ w0 wr, ws = w0 :: wr := by
      cases ws with
      | nil => exact absurd rfl h.ws_ne
      | cons a b => exact ⟨a, b, rfl⟩
    rw [List.cons_append]
    simp only [scanName]
    rw [← List.cons_append, matchTail_canonical h]
  | cons c nm' ih =>
    intro acc hnl
    have hcnl : c ≠ '\n' := fun hh => hnl (hh ▸ List.mem_cons_self c nm')
    rcases htm : matchTail ((c :: nm') ++ (ws ++ (numToken ds frac ++ (ws2 ++ u))))
        with _ | r
    · obtain ⟨p, sp, heq, hsp, hpsp⟩ := ih (c :: acc) (fun hx => hnl (List.mem_cons_of_mem c hx))
      refine ⟨p, sp, ?_, hsp, ?_⟩
      · rw [List.cons_append] at htm ⊢
        simp only [scanName, htm]
        rw [if_neg hcnl]
        exact heq
      · rw [← hpsp, List.reverse_cons, List.append_assoc, List.singleton_append]
    · obtain ⟨hsp, hr⟩ := matchTail_append_inv h (c :: nm') htm
      subst hr
      refine ⟨acc.reverse, c :: nm', ?_, hsp, rfl⟩
      rw [List.cons_append] at htm ⊢
      simp only [scanName, htm]

/-- `re.match` on a canonical matching input: group 1 is the name minus some
all-whitespace suffix, groups 2 and 3 are the numeral and the lowered unit. -/
theorem weightRegexMatch_canonical {ws ds ws2 u : List Char} {frac : Option (List Char)}
    (h : WeightTail ws ds frac ws2 u) {n0 : Char} {nrest : List Char}
    (hn0 : pyIsSpace n0 = false) (hnl : '\n' ∉ n0 :: nrest) :
    ∃ p sp, weightRegexMatch ((n0 :: nrest) ++ (ws ++ (numToken ds frac ++ (ws2 ++ u)))) =
        some (p, numToken ds frac, lowerUnit u) ∧
      (∀ c ∈ sp, pyIsSpace c = true) ∧ n0 :: nrest = p ++ sp := by
  have hn0nl : n0 ≠ '\n' := fun hh => by
    rw [hh] at hn0
    exact absurd hn0 (by decide)
  obtain ⟨p, sp, heq, hsp, hpsp⟩ :=
    scanName_through h nrest [n0] (fun hx => hnl (List.mem_cons_of_mem n0 hx))
  refine ⟨p, sp, ?_, hsp, ?_⟩
  · rw [List.cons_append]
    simp only [weightRegexMatch]
    rw [if_neg hn0nl]
    exact heq
  · simpa using hpsp

/-- `strip` is the identity when both ends are non-whitespace. -/
theorem pyStripList_eq_self {s : List Char}
    (h1 : ∀ c, s.head? = some c → pyIsSpace c = false)
    (h2 : ∀ c, s.getLast? = some c → pyIsSpace c = false) :
    pyStripList s = s := by
  unfold pyStripList
  rw [dropWhile_head_neg h1,
    dropWhile_head_neg (by
      intro c hc
      rw [List.head?_reverse] at hc
      exact h2 c hc),
    List.reverse_reverse]

/-! ### Claim C3 -/

/-- C3: the item parser is total and never fails.  For every input of the form
`<name> <number>(g|kg)` (case-insensitive unit, trailing weight token,
`<name>` starting with a non-whitespace, non-newline character), parsing
returns exactly the numeral's value, the lower-cased unit, and the trimmed
prefix as the canonical name.  For every input whose stripped form does not
match the weight pattern — including the volume example "milk 3L" — parsing
returns the whole trimmed input with both weight fields absent.  In
particular "garlic 100g" yields ("garlic", 100.0, "g"). -/
theorem c3_parser_total :
    (∀ (n0 : Char) (nrest ws ds ws2 u : List Char) (frac : Option (List Char)),
      pyIsSpace n0 = false → '\n' ∉ n0 :: nrest →
      WeightTail ws ds frac ws2 u →
      parseItemWithWeight ((n0 :: nrest) ++ (ws ++ (numToken ds frac ++ (ws2 ++ u)))) =
        (pyStripList (n0 :: nrest), some ((digitsToNat ds : ℚ) + fracValue frac),
          some (lowerUnit u))) ∧
    (∀ s : List Char, weightRegexMatch (pyStripList s) = none →
      parseItemWithWeight s = (pyStripList s, none, none)) ∧
    parseItemWithWeight "garlic 100g".toList = ("garlic".toList, some 100, some ['g']) ∧
    parseItemWithWeight "milk 3L".toList = ("milk 3L".toList, none, none) := by
  refine ⟨?_, ?_, by rfl, by rfl⟩
  · intro n0 nrest ws ds ws2 u frac hn0 hnl h
    obtain ⟨a, hua, hasp⟩ := h.unit_shape.getLast_not_space
    have hss : pyStripList ((n0 :: nrest) ++ (ws ++ (numToken ds frac ++ (ws2 ++ u)))) =
        (n0 :: nrest) ++ (ws ++ (numToken ds frac ++ (ws2 ++ u))) := by
      apply pyStripList_eq_self
      · intro c hc
        simp only [List.cons_append, List.head?_cons, Option.some_inj] at hc
        subst hc
        exact hn0
      · intro c hc
        have hlast : ((n0 :: nrest) ++ (ws ++ (numToken ds frac ++ (ws2 ++ u)))).getLast? =
            some a := by
          rw [List.getLast?_append, List.getLast?_append, List.getLast?_append,
            List.getLast?_append, hua]
          rfl
        rw [hlast, Option.some_inj] at hc
        subst hc
        exact hasp
    obtain ⟨p, sp, heq, hsp, hpsp⟩ := weightRegexMatch_canonical h hn0 hnl
    simp only [parseItemWithWeight, hss, heq]
    rw [numValue_numToken h.ds_dig (fun fs hfs => (h.frac_dig fs hfs).2),
      hpsp, pyStripList_append_space hsp]
  · intro s hnone
    simp only [parseItemWithWeight, hnone]

/-- Witness for C3 at the concrete input "a 2g". -/
theorem c3_parser_total_witness :
    parseItemWithWeight (('a' :: []) ++ ([' '] ++ (numToken ['2'] none ++ ([] ++ ['g'])))) =
      (pyStripList ('a' :: []), some ((digitsToNat ['2'] : ℚ) + fracValue none),
        some (lowerUnit ['g'])) :=
  c3_parser_total.1 'a' [] [' '] ['2'] [] ['g'] none (by decide) (by decide)
    ⟨by decide, by decide, by decide, by decide, by simp, by decide, Or.inl rfl⟩

/-! ### Claim C1 -/

/-- C1: the summary's cheaper-store field is non-absent only when both running
totals are strictly positive; when both are positive, savings is the absolute
difference of the raw totals rounded to two decimals; when either total is
zero, cheaper_store is absent and savings is 0.  With retailer A quotes 2.50
and 3.00 and no retailer B quotes, the summary reads total_a = 5.50,
total_b = 0, cheaper absent, savings 0; with totals 10 and 8, cheaper is
Woolworths with savings 2. -/
theorem c1_summary_policy :
    (∀ ta tb : ℚ,
      ((computeSummary ta tb).cheaper_store ≠ none → 0 < ta ∧ 0 < tb) ∧
      (0 < ta → 0 < tb →
        (computeSummary ta tb).cheaper_store ≠ none ∧
        (computeSummary ta tb).savings = round2 |ta - tb|) ∧
      (ta = 0 ∨ tb = 0 →
        (computeSummary ta tb).cheaper_store = none ∧
          (computeSummary ta tb).savings = 0)) ∧
    ((compareGroceryPrices (.ok "bid") exSearchColes exSearchWoolies
        ["apple", "banana"]).summary =
      some { coles_total := 11/2, woolworths_total := 0, cheaper_store := none,
             savings := 0 }) ∧
    (computeSummary 10 8).cheaper_store = some "Woolworths" ∧
    (computeSummary 10 8).savings = 2 := by
  refine ⟨?_, ?_, ?_, ?_⟩
  · intro ta tb
    refine ⟨?_, ?_, ?_⟩
    · intro hne
      by_cases hc : 0 < ta ∧ 0 < tb
      · exact hc
      · exact absurd (by simp [computeSummary, if_neg hc]) hne
    · intro hta htb
      simp [computeSummary, if_pos (And.intro hta htb)]
    · intro hz
      have hc : ¬(0 < ta ∧ 0 < tb) := by
        rcases hz with rfl | rfl
        · exact fun hx => lt_irrefl 0 hx.1
        · exact fun hx => lt_irrefl 0 hx.2
      simp [computeSummary, if_neg hc]
  · simp [compareGroceryPrices, compareInner, processItems, processItem,
      exSearchColes, exSearchWoolies, parseItemWithWeight, pyStripList,
      weightRegexMatch, scanName, matchTail, matchNum, matchAfterNum, matchUnit,
      pyIsSpace, weightTruthy, unitTruthy, computeSummary, ProductData.toNormalized,
      cellOfColes]
    norm_num [round2, pyRoundInt]
  · norm_num [computeSummary]
  · norm_num [computeSummary, round2, pyRoundInt]

/-- Witness for C1's quantified part at totals 10 and 8. -/
theorem c1_summary_policy_witness :
    (computeSummary 10 8).cheaper_store ≠ none ∧
    (computeSummary 10 8).savings = round2 |(10 : ℚ) - 8| :=
  (c1_summary_policy.1 10 8).2.1 (by norm_num) (by norm_num)

/-! ### Claim C10 -/

/-- C10: when both totals are strictly positive and exactly equal, the summary
reports Woolworths as the cheaper store with zero savings, rather than leaving
the field absent. -/
theorem c10_tie_goes_to_woolworths (t : ℚ) (ht : 0 < t) :
    (computeSummary t t).cheaper_store = some "Woolworths" ∧
    (computeSummary t t).savings = 0 := by
  unfold computeSummary
  rw [if_pos (And.intro ht ht)]
  refine ⟨by simp [lt_irrefl], ?_⟩
  norm_num [round2, pyRoundInt]

/-- Witness for C10 at equal totals 5 and 5. -/
theorem c10_tie_goes_to_woolworths_witness :
    (computeSummary 5 5).cheaper_store = some "Woolworths" ∧
    (computeSummary 5 5).savings = 0 :=
  c10_tie_goes_to_woolworths 5 (by norm_num)

/-! ### Claim C2 -/

/-- Inner helper: a successful run of the `try` body always carries
`status = "success"`. -/
theorem compareInner_ok_status {bf : Except String String}
    {sC sW : List Char → Except String (Option ProductData)} {items : List String}
    {r : CompareResult} (h : compareInner bf sC sW items = .ok r) :
    r.status = "success" := by
  unfold compareInner at h
  cases bf with
  | error e => simp at h
  | ok b =>
    cases hp : processItems sC sW items with
    | error e => rw [hp] at h; simp at h
    | ok x =>
      obtain ⟨rows, ct, wt⟩ := x
      rw [hp] at h
      cases h
      rfl

/-- C2: `compare_grocery_prices` never propagates an exception.  Its result
always has status success or failed; when the build-identifier fetch fails the
result is exactly the failed payload with a diagnostic message and no rows;
and any error raised inside the `try` body likewise produces a failed result
with a message and no partial rows. -/
theorem c2_failure_containment :
    ∀ (bf : Except String String)
      (sC sW : List Char → Except String (Option ProductData)) (items : List String),
      ((compareGroceryPrices bf sC sW items).status = "success" ∨
        (compareGroceryPrices bf sC sW items).status = "failed") ∧
      (∀ e, bf = .error e →
        compareGroceryPrices bf sC sW items =
          { status := "failed", message := some ("Error comparing prices: " ++ e) }) ∧
      (∀ e, compareInner bf sC sW items = .error e →
        (compareGroceryPrices bf sC sW items).status = "failed" ∧
        (compareGroceryPrices bf sC sW items).results = none ∧
        (compareGroceryPrices bf sC sW items).message =
          some ("Error comparing prices: " ++ e)) := by
  intro bf sC sW items
  refine ⟨?_, ?_, ?_⟩
  · cases hi : compareInner bf sC sW items with
    | error e => right; simp [compareGroceryPrices, hi]
    | ok r =>
      left
      simpa [compareGroceryPrices, hi] using compareInner_ok_status hi
  · intro e he
    subst he
    rfl
  · intro e he
    simp [compareGroceryPrices, he]

/-- Witness for C2: a failing build-identifier fetch yields the bare failed
payload. -/
theorem c2_failure_containment_witness :
    compareGroceryPrices (.error "boom") (fun _ => .ok none) (fun _ => .ok none) [] =
      { status := "failed", message := some ("Error comparing prices: " ++ "boom") } :=
  (c2_failure_containment (.error "boom") (fun _ => .ok none) (fun _ => .ok none) []).2.1
    "boom" rfl

/-! ### Claim C9 -/

/-- C9: the build identifier is fetched at most once per process.  With a
filled cache every call returns the cached identifier without fetching; a full
call trace from an empty cache contains at most one successful fetch; and a
cache hit is exactly a no-fetch step. -/
theorem c9_build_id_memoized :
    (∀ (v : String) (fs : List (Except String String)),
      buildIdTrace (some v) fs = fs.map (fun _ => (Except.ok v, false))) ∧
    (∀ fs : List (Except String String),
      (buildIdTrace none fs).countP isSuccessfulFetch ≤ 1) ∧
    (∀ (v : String) (f : Except String String),
      buildIdStep (some v) f = (.ok v, some v, false)) := by
  have hcached : ∀ (v : String) (fs : List (Except String String)),
      buildIdTrace (some v) fs = fs.map (fun _ => (Except.ok v, false)) := by
    intro v fs
    induction fs with
    | nil => rfl
    | cons f fs ih => simp [buildIdTrace, buildIdStep, ih]
  refine ⟨hcached, ?_, fun v f => rfl⟩
  intro fs
  induction fs with
  | nil => simp [buildIdTrace]
  | cons f fs ih =>
    cases f with
    | ok v =>
      rw [show buildIdTrace none (.ok v :: fs) =
          (Except.ok v, true) :: buildIdTrace (some v) fs from rfl]
      rw [List.countP_cons, hcached]
      have hz : (List.map (fun _ => ((Except.ok v : Except String String), false)) fs).countP
          isSuccessfulFetch = 0 := by
        rw [List.countP_eq_zero]
        intro a ha
        rw [List.mem_map] at ha
        obtain ⟨-, -, rfl⟩ := ha
        simp [isSuccessfulFetch]
      rw [hz]
      simp [isSuccessfulFetch]
    | error e =>
      rw [show buildIdTrace none (.error e :: fs) =
          ((Except.error e : Except String String), true) :: buildIdTrace none fs from rfl]
      rw [List.countP_cons]
      simpa [isSuccessfulFetch] using ih

/-! ### Claim C5 -/

/-- C5: for every weighted quote whose unit label yields no per-kilogram
reference, both normalizers return the original price unchanged together with
a non-absent calculation note. -/
theorem c5_normalizer_fallback :
    ∀ (pd : ProductData) (w : ℚ) (u : List Char),
      (pd.is_weighted = some true → colesPerKg pd.unit = none →
        (calcColes pd w u).price = pd.price ∧ (calcColes pd w u).note ≠ none) ∧
      (pd.is_weighted = some true → wooliesPerKg pd.unit = none →
        (calcWoolies pd w u).price = pd.price ∧ (calcWoolies pd w u).note ≠ none) := by
  intro pd w u
  constructor
  · intro hw hnone
    unfold calcColes
    rw [if_neg (by simp [hw]), hnone]
    exact ⟨rfl, by simp⟩
  · intro _ hnone
    unfold calcWoolies
    rw [hnone]
    exact ⟨rfl, by simp⟩

/-- Witness for C5 at a weighted quote with unit label "each". -/
theorem c5_normalizer_fallback_witness :
    ((calcColes exNoPatternQuote 250 ['g']).price = exNoPatternQuote.price ∧
      (calcColes exNoPatternQuote 250 ['g']).note ≠ none) ∧
    ((calcWoolies exNoPatternQuote 250 ['g']).price = exNoPatternQuote.price ∧
      (calcWoolies exNoPatternQuote 250 ['g']).note ≠ none) :=
  ⟨(c5_normalizer_fallback exNoPatternQuote 250 ['g']).1 rfl rfl,
   (c5_normalizer_fallback exNoPatternQuote 250 ['g']).2 rfl rfl⟩

/-! ### Claim C6 -/

/-- C6: when a per-kilogram reference price is extracted, the requested weight
is converted to kilograms (grams divided by 1000, kilograms passed through,
unrecognized units treated as grams) and the price is the per-kg price times
the weight in kg, rounded to two decimals; in particular "$11.50 / 1KG" at
500 g gives 5.75. -/
theorem c6_normalizer_arithmetic :
    (∀ (pd : ProductData) (w : ℚ) (u : List Char) (p : ℚ),
      (pd.is_weighted = some true → colesPerKg pd.unit = some p →
        (calcColes pd w u).price = round2 (p * weightInKg w u)) ∧
      (wooliesPerKg pd.unit = some p →
        (calcWoolies pd w u).price = round2 (p * weightInKg w u))) ∧
    (∀ w : ℚ, weightInKg w ['g'] = w / 1000 ∧ weightInKg w "kg".toList = w) ∧
    (∀ (w : ℚ) (u : List Char),
      u ∉ ["g".toList, "gram".toList, "grams".toList, "kg".toList, "kilo".toList,
        "kilos".toList, "kilogram".toList] → weightInKg w u = w / 1000) ∧
    (calcWoolies exWooliesQuote 500 ['g']).price = 5.75 := by
  refine ⟨?_, ?_, ?_, ?_⟩
  · intro pd w u p
    constructor
    · intro hw hsome
      unfold calcColes
      rw [if_neg (by simp [hw]), hsome]
    · intro hsome
      unfold calcWoolies
      rw [hsome]
  · intro w
    constructor
    · simp [weightInKg]
    · simp [weightInKg]
  · intro w u hu
    simp only [List.mem_cons, not_or] at hu
    obtain ⟨h1, h2, h3, h4, h5, h6, h7, -⟩ := hu
    unfold weightInKg
    rw [if_neg (by rintro (h | h | h); exacts [h1 h, h2 h, h3 h]),
      if_neg (by rintro (h | h | h | h); exacts [h4 h, h5 h, h6 h, h7 h])]
  · have hkg : wooliesPerKg exWooliesQuote.unit = some (23/2) := by
      simp [exWooliesQuote, wooliesPerKg, perKgSearch, tryPerKgAt, numGroup, dropLit,
        charMatches, pyIsSpace, numValue, digitsToNat]
      norm_num
    unfold calcWoolies
    rw [hkg]
    show round2 ((23/2) * weightInKg 500 ['g']) = 5.75
    norm_num [weightInKg, round2, pyRoundInt]

/-- Witness for C6 at the Woolworths example quote. -/
theorem c6_normalizer_arithmetic_witness :
    (calcWoolies exWooliesQuote 500 ['g']).price =
      round2 ((23/2) * weightInKg 500 ['g']) :=
  (c6_normalizer_arithmetic.1 exWooliesQuote 500 ['g'] (23/2)).2 (by
    simp [exWooliesQuote, wooliesPerKg, perKgSearch, tryPerKgAt, numGroup, dropLit,
      charMatches, pyIsSpace, numValue, digitsToNat]
    norm_num)

/-! ### Claim C4 -/

/-- C4 counterexample: a quote that is not flagged weighted (the flag is
absent, as for every Woolworths quote), whose price is nevertheless changed by
the Woolworths normalization path, with no fixed-package note.  This refutes
the claim that both retailer paths return unflagged quotes unchanged. -/
theorem c4_counterexample :
    exWooliesQuote.is_weighted ≠ some true ∧
    (calcWoolies exWooliesQuote 500 ['g']).price ≠ exWooliesQuote.price ∧
    (calcWoolies exWooliesQuote 500 ['g']).note = none := by
  have hkg : wooliesPerKg exWooliesQuote.unit = some (23/2) := by
    simp [exWooliesQuote, wooliesPerKg, perKgSearch, tryPerKgAt, numGroup, dropLit,
      charMatches, pyIsSpace, numValue, digitsToNat]
    norm_num
  refine ⟨by simp [exWooliesQuote], ?_, ?_⟩
  · unfold calcWoolies
    rw [hkg]
    show round2 ((23/2) * weightInKg 500 ['g']) ≠ exWooliesQuote.price
    norm_num [weightInKg, round2, pyRoundInt, exWooliesQuote]
  · unfold calcWoolies
    rw [hkg]
    rfl

/-- C4 amended: only the Retailer A path returns unflagged quotes unchanged
with a fixed-package note; the Retailer B path ignores the weighted flag and
scales the price whenever its per-kg pattern matches the unit label. -/
theorem c4_amended :
    ∀ (pd : ProductData) (w : ℚ) (u : List Char),
      (pd.is_weighted ≠ some true →
        calcColes pd w u = { pd.toNormalized with note := some (.fixedPackage w u) }) ∧
      (∀ p, wooliesPerKg pd.unit = some p →
        (calcWoolies pd w u).price = round2 (p * weightInKg w u)) := by
  intro pd w u
  constructor
  · intro hw
    unfold calcColes
    rw [if_pos hw]
  · intro p hsome
    unfold calcWoolies
    rw [hsome]

/-- Witness for C4 amended: an unflagged quote through the Retailer A path. -/
theorem c4_amended_witness :
    calcColes exWooliesQuote 500 ['g'] =
      { exWooliesQuote.toNormalized with note := some (.fixedPackage 500 ['g']) } :=
  (c4_amended exWooliesQuote 500 ['g']).1 (by simp [exWooliesQuote])

/-! ### Claim C7 -/

/-- The per-kg tail matcher succeeds on a canonically shaped label body. -/
theorem tryPerKgAt_canonical (ci : Bool) (sep msep : List Char)
    (hm : ∀ x, dropLit ci sep (msep ++ x) = some x)
    (mh : Char) (mt : List Char) (hmsep : msep = mh :: mt)
    (hmh_sp : pyIsSpace mh = false) (hmh_dig : mh.isDigit = false) (hmh_dot : mh ≠ '.')
    (ds : List Char) (dotfs : Option (List Char)) (sp1 sp2 opt1 kgv suf : List Char)
    (hds : ds ≠ []) (hdig : ∀ c ∈ ds, c.isDigit = true)
    (hdot : ∀ fs, dotfs = some fs → ∀ c ∈ fs, c.isDigit = true)
    (hsp1 : ∀ c ∈ sp1, pyIsSpace c = true) (hsp2 : ∀ c ∈ sp2, pyIsSpace c = true)
    (hopt : opt1 = [] ∨ opt1 = ['1'])
    (kh : Char) (kt : List Char) (hkgv : kgv = kh :: kt)
    (hkh_sp : pyIsSpace kh = false) (hkh1 : kh ≠ '1')
    (hkg : (dropLit ci ['k', 'g'] (kgv ++ suf)).isSome = true) :
    tryPerKgAt ci sep
      (numToken ds dotfs ++ (sp1 ++ (msep ++ (sp2 ++ (opt1 ++ (kgv ++ suf)))))) =
      some (numToken ds dotfs) := by
  have hRhead : ∀ c, (sp1 ++ (msep ++ (sp2 ++ (opt1 ++ (kgv ++ suf))))).head? = some c →
      c.isDigit = false ∧ c ≠ '.' := by
    intro c hc
    cases sp1 with
    | nil =>
      rw [hmsep] at hc
      simp only [List.nil_append, List.cons_append, List.head?_cons, Option.some_inj] at hc
      subst hc
      exact ⟨hmh_dig, hmh_dot⟩
    | cons a t =>
      simp only [List.cons_append, List.head?_cons, Option.some_inj] at hc
      subst hc
      have ha := hsp1 a (by simp)
      exact ⟨isSpace_not_digit ha, isSpace_ne_dot ha⟩
  have hng : numGroup
      (numToken ds dotfs ++ (sp1 ++ (msep ++ (sp2 ++ (opt1 ++ (kgv ++ suf)))))) =
      some (numToken ds dotfs, sp1 ++ (msep ++ (sp2 ++ (opt1 ++ (kgv ++ suf))))) := by
    cases dotfs with
    | none =>
      simp only [numToken, List.append_nil]
      unfold numGroup
      simp only [takeWhile_append_all hdig, dropWhile_append_all hdig,
        takeWhile_head_neg (fun c hc => (hRhead c hc).1),
        dropWhile_head_neg (fun c hc => (hRhead c hc).1), List.append_nil]
      rw [if_neg hds,
        if_neg (fun hc => absurd rfl (hRhead '.' hc).2)]
    | some fs =>
      have hfs : ∀ c ∈ fs, c.isDigit = true := hdot fs rfl
      simp only [numToken]
      rw [List.append_assoc, List.cons_append]
      unfold numGroup
      simp only [takeWhile_append_all hdig, dropWhile_append_all hdig,
        takeWhile_digit_dot, dropWhile_digit_dot,
        List.append_nil, List.head?_cons, List.tail_cons]
      rw [if_neg hds, if_pos trivial]
      simp only [takeWhile_append_all hfs, dropWhile_append_all hfs,
        takeWhile_head_neg (fun c hc => (hRhead c hc).1),
        dropWhile_head_neg (fun c hc => (hRhead c hc).1), List.append_nil]
  have h1 : (sp1 ++ (msep ++ (sp2 ++ (opt1 ++ (kgv ++ suf))))).dropWhile pyIsSpace =
      msep ++ (sp2 ++ (opt1 ++ (kgv ++ suf))) := by
    rw [dropWhile_append_all hsp1, hmsep, List.cons_append,
      List.dropWhile_cons_of_neg (by simp [hmh_sp]), ← List.cons_append]
  have h2 : (sp2 ++ (opt1 ++ (kgv ++ suf))).dropWhile pyIsSpace =
      opt1 ++ (kgv ++ suf) := by
    rw [dropWhile_append_all hsp2]
    rcases hopt with rfl | rfl
    · simp only [List.nil_append]
      rw [hkgv, List.cons_append, List.dropWhile_cons_of_neg (by simp [hkh_sp])]
    · simp only [List.cons_append, List.nil_append]
      rw [List.dropWhile_cons_of_neg (by decide)]
  simp only [tryPerKgAt, hng, h1, hm, h2]
  rcases hopt with rfl | rfl
  · rw [List.nil_append, hkgv, List.cons_append, List.head?_cons,
      if_neg (by simp [hkh1]), ← List.cons_append, ← hkgv, if_pos hkg]
  · simp only [List.cons_append, List.nil_append, List.head?_cons, List.tail_cons]
    rw [if_pos trivial, if_pos hkg]

/-- `re.search` finds the canonical per-kg match after skipping a
dollar-free prefix. -/
theorem perKgSearch_canonical (ci : Bool) (sep : List Char) {nm : List Char}
    (pre body : List Char) (hpre : '$' ∉ pre)
    (hbody : tryPerKgAt ci sep body = some nm) :
    perKgSearch ci sep (pre ++ '$' :: body) = some (numValue nm) := by
  induction pre with
  | nil =>
    rw [List.nil_append]
    simp only [perKgSearch]
    rw [if_pos trivial, hbody]
  | cons c p ih =>
    have hc : c ≠ '$' := fun hh => hpre (hh ▸ List.mem_cons_self c p)
    rw [List.cons_append]
    simp only [perKgSearch]
    rw [if_neg hc]
    exact ih (fun hx => hpre (List.mem_cons_of_mem c hx))

/-- C7 counterexample: the Retailer A per-kg pattern is case-sensitive.  For
the unit label "$5 per 1KG" (an upper-case member of the "$X per 1kg" family)
no per-kg price is extracted and the quote is not scaled: the price stays 99
instead of becoming the scaled 2.50 the claim implies.  The same casing is
accepted by the Retailer B pattern. -/
theorem c7_counterexample :
    colesPerKg exColesUpperQuote.unit = none ∧
    (calcColes exColesUpperQuote 500 ['g']).price = 99 ∧
    (calcColes exColesUpperQuote 500 ['g']).price ≠ round2 (5 * weightInKg 500 ['g']) ∧
    wooliesPerKg "$5 / 1KG".toList = some 5 := by
  have hnone : colesPerKg exColesUpperQuote.unit = none := by rfl
  have hprice : (calcColes exColesUpperQuote 500 ['g']).price = 99 := by
    unfold calcColes
    rw [if_neg (by simp [exColesUpperQuote]), hnone]
    rfl
  refine ⟨hnone, hprice, ?_, ?_⟩
  · rw [hprice]
    norm_num [weightInKg, round2, pyRoundInt]
  · simp [wooliesPerKg, perKgSearch, tryPerKgAt, numGroup, dropLit, charMatches,
      pyIsSpace, numValue, digitsToNat]

/-- C7 amended: the Retailer B pattern ("$X / 1KG" family) is case-insensitive
in the `kg` letters; the Retailer A pattern ("$X per 1kg" family) extracts the
per-kg price for its lower-case spelling (the extraction Retailer A actually
performs is case-sensitive). -/
theorem c7_amended :
    (∀ (pre ds : List Char) (dotfs : Option (List Char)) (sp1 sp2 opt1 kgv suf : List Char),
      '$' ∉ pre → ds ≠ [] → (∀ c ∈ ds, c.isDigit = true) →
      (∀ fs, dotfs = some fs → ∀ c ∈ fs, c.isDigit = true) →
      (∀ c ∈ sp1, pyIsSpace c = true) → (∀ c ∈ sp2, pyIsSpace c = true) →
      (opt1 = [] ∨ opt1 = ['1']) →
      (kgv = ['k', 'g'] ∨ kgv = ['k', 'G'] ∨ kgv = ['K', 'g'] ∨ kgv = ['K', 'G']) →
      wooliesPerKg (pre ++ '$' ::
          (numToken ds dotfs ++ (sp1 ++ (['/'] ++ (sp2 ++ (opt1 ++ (kgv ++ suf))))))) =
        some ((digitsToNat ds : ℚ) + fracValue dotfs)) ∧
    (∀ (pre ds : List Char) (dotfs : Option (List Char)) (sp1 sp2 opt1 suf : List Char),
      '$' ∉ pre → ds ≠ [] → (∀ c ∈ ds, c.isDigit = true) →
      (∀ fs, dotfs = some fs → ∀ c ∈ fs, c.isDigit = true) →
      (∀ c ∈ sp1, pyIsSpace c = true) → (∀ c ∈ sp2, pyIsSpace c = true) →
      (opt1 = [] ∨ opt1 = ['1']) →
      colesPerKg (pre ++ '$' ::
          (numToken ds dotfs ++ (sp1 ++ (['p', 'e', 'r'] ++
            (sp2 ++ (opt1 ++ (['k', 'g'] ++ suf))))))) =
        some ((digitsToNat ds : ℚ) + fracValue dotfs)) := by
  constructor
  · intro pre ds dotfs sp1 sp2 opt1 kgv suf hpre hds hdig hdot hsp1 hsp2 hopt hkgv
    rw [← numValue_numToken hdig hdot]
    apply perKgSearch_canonical true ['/'] pre _ hpre
    have hkg : (dropLit true ['k', 'g'] (kgv ++ suf)).isSome = true := by
      rcases hkgv with rfl | rfl | rfl | rfl <;> rfl
    obtain ⟨kh, kt, hk, hksp, hk1⟩ : ∃ kh kt, kgv = kh :: kt ∧
        pyIsSpace kh = false ∧ kh ≠ '1' := by
      rcases hkgv with rfl | rfl | rfl | rfl <;> exact ⟨_, _, rfl, by decide, by decide⟩
    exact tryPerKgAt_canonical true ['/'] ['/'] (fun x => rfl) '/' [] rfl
      (by decide) (by decide) (by decide) ds dotfs sp1 sp2 opt1 kgv suf
      hds hdig hdot hsp1 hsp2 hopt kh kt hk hksp hk1 hkg
  · intro pre ds dotfs sp1 sp2 opt1 suf hpre hds hdig hdot hsp1 hsp2 hopt
    rw [← numValue_numToken hdig hdot]
    apply perKgSearch_canonical false ['p', 'e', 'r'] pre _ hpre
    exact tryPerKgAt_canonical false ['p', 'e', 'r'] ['p', 'e', 'r'] (fun x => rfl)
      'p' ['e', 'r'] rfl (by decide) (by decide) (by decide) ds dotfs sp1 sp2 opt1
      ['k', 'g'] suf hds hdig hdot hsp1 hsp2 hopt 'k' ['g'] rfl (by decide) (by decide) rfl

/-- Witness for C7 amended at the labels "$11.50 / 1KG" and "$3.90 per kg". -/
theorem c7_amended_witness :
    wooliesPerKg ([] ++ '$' ::
        (numToken ['1', '1'] (some ['5', '0']) ++ ([' '] ++ (['/'] ++ ([' '] ++
          (['1'] ++ (['K', 'G'] ++ []))))))) =
      some ((digitsToNat ['1', '1'] : ℚ) + fracValue (some ['5', '0'])) ∧
    colesPerKg ([] ++ '$' ::
        (numToken ['3'] (some ['9', '0']) ++ ([' '] ++ (['p', 'e', 'r'] ++ ([' '] ++
          ([] ++ (['k', 'g'] ++ []))))))) =
      some ((digitsToNat ['3'] : ℚ) + fracValue (some ['9', '0'])) :=
  ⟨c7_amended.1 [] ['1', '1'] (some ['5', '0']) [' '] [' '] ['1'] ['K', 'G'] []
      (by decide) (by decide) (by decide) (by simp) (by decide) (by decide)
      (Or.inr rfl) (Or.inr (Or.inr (Or.inr rfl))),
   c7_amended.2 [] ['3'] (some ['9', '0']) [' '] [' '] [] []
      (by decide) (by decide) (by decide) (by simp) (by decide) (by decide) (Or.inl rfl)⟩

/-! ### Claim C8 -/

/-- C8 counterexample: with a first PRODUCT entry from which no quote can be
formed and a second PRODUCT entry carrying a plain price, the client returns
the second entry's quote, whereas the claim's first-product-entry policy
yields an absent result. -/
theorem c8_counterexample :
    colesResultsScan [entryNoQuote, entryWithNow] =
      some { description := "second", price := 3, unit := [], is_weighted := some false } ∧
    specColesSelectFirstProduct [entryNoQuote, entryWithNow] = none ∧
    entryNoQuote.typ = some "PRODUCT" := by
  refine ⟨rfl, rfl, rfl⟩

/-- C8 amended: the client iterates the result entries and returns the quote
from the first PRODUCT-tagged entry from which a quote can be formed
(weighted-comparable parse preferred, else the entry's direct price); entries
yielding no quote are skipped; with no such entry, or on any fetch error, the
result is absent. -/
theorem c8_amended :
    (∀ rs : List ColesEntry,
      colesResultsScan rs = rs.findSome?
        (fun e => if e.typ = some "PRODUCT" then tryQuoteOfEntry e else none)) ∧
    (∀ err, searchColes (.error err) = none) ∧
    (∀ rs, searchColes (.ok rs) = colesResultsScan rs) ∧
    (∀ (d : Option String) (pr : ColesPricing) (p : ℚ),
      comparableTruthy pr.comparable = true → pr.unitIsWeighted = some true →
      priceSearch (pr.comparable.getD "").toList = some p →
      tryQuoteOfEntry { typ := some "PRODUCT", description := d, pricing := some pr } =
        some { description := d.getD "<no description>", price := p,
               unit := (pr.comparable.getD "").toList, is_weighted := some true }) ∧
    (∀ (d : Option String) (pr : ColesPricing) (np : ℚ),
      (comparableTruthy pr.comparable = false ∨ pr.unitIsWeighted.getD false = false ∨
        priceSearch (pr.comparable.getD "").toList = none) →
      pr.now = some np →
      tryQuoteOfEntry { typ := some "PRODUCT", description := d, pricing := some pr } =
        some { description := d.getD "<no description>", price := np,
               unit := (if comparableTruthy pr.comparable then pr.comparable.getD ""
                 else "").toList,
               is_weighted := some (pr.unitIsWeighted.getD false) }) ∧
    (∀ (d : Option String) (pr : ColesPricing),
      pr.now = none →
      (comparableTruthy pr.comparable = false ∨ pr.unitIsWeighted.getD false = false ∨
        priceSearch (pr.comparable.getD "").toList = none) →
      tryQuoteOfEntry { typ := some "PRODUCT", description := d, pricing := some pr } =
        none) := by
  refine ⟨?_, fun err => rfl, fun rs => rfl, ?_, ?_, ?_⟩
  · intro rs
    induction rs with
    | nil => rfl
    | cons e rs ih =>
      rw [List.findSome?_cons]
      by_cases ht : e.typ = some "PRODUCT"
      · rw [if_pos ht]
        unfold colesResultsScan
        rw [if_pos ht]
        cases tryQuoteOfEntry e with
        | none => exact ih
        | some q => rfl
      · rw [if_neg ht]
        unfold colesResultsScan
        rw [if_neg ht]
        exact ih
  · intro d pr p hct hw hp
    unfold tryQuoteOfEntry
    simp only [Option.getD_some]
    rw [if_pos ⟨by simpa using hct, by simp [hw]⟩]
    simp only [hp]
  · intro d pr np hfall hnow
    unfold tryQuoteOfEntry
    simp only [Option.getD_some]
    rcases hfall with hf | hf | hf
    · rw [if_neg (by simp [hf])]
      simp only [hnow]
    · rw [if_neg (by simp [hf])]
      simp only [hnow]
    · by_cases hc : comparableTruthy pr.comparable = true ∧ pr.unitIsWeighted.getD false = true
      · rw [if_pos hc]
        simp only [hf, hnow]
      · rw [if_neg hc]
        simp only [hnow]
  · intro d pr hnow hfall
    unfold tryQuoteOfEntry
    simp only [Option.getD_some]
    rcases hfall with hf | hf | hf
    · rw [if_neg (by simp [hf])]
      simp only [hnow]
    · rw [if_neg (by simp [hf])]
      simp only [hnow]
    · by_cases hc : comparableTruthy pr.comparable = true ∧ pr.unitIsWeighted.getD false = true
      · rw [if_pos hc]
        simp only [hf, hnow]
      · rw [if_neg hc]
        simp only [hnow]

/-- Witness for C8 amended: the two concrete entries through the loop
characterization. -/
theorem c8_amended_witness :
    colesResultsScan [entryNoQuote, entryWithNow] =
      [entryNoQuote, entryWithNow].findSome?
        (fun e => if e.typ = some "PRODUCT" then tryQuoteOfEntry e else none) ∧
    tryQuoteOfEntry
        { typ := some "PRODUCT", description := some "second"
          pricing := some { now := some 3 } } =
      some { description := (some "second").getD "<no description>", price := 3
             unit := (if comparableTruthy (none : Option String) then
               (none : Option String).getD "" else "").toList
             is_weighted := some ((none : Option Bool).getD false) } :=
  ⟨c8_amended.1 [entryNoQuote, entryWithNow],
   c8_amended.2.2.2.2.1 (some "second") { now := some 3 } 3 (Or.inl rfl) rfl⟩

end Grocery
